import Mathlib

/- Verification of the jarvis-rag core against its specification.

   The development shallowly embeds the Python sources:
     backend/rag/url_tools.py   (extract_urls, ingest_url)
     backend/rag/graph_chat.py  (classify_node, ingest_node, rag_query_node,
                                 build_graph, run_chat)
     backend/main.py            (ChatRequest validation, ChatResponse, chat)

   External collaborators (requests, BeautifulSoup, Chroma, the Gemini model,
   hashlib.md5, urllib.parse) are modelled as deterministic functions packaged
   in a RagEnv record; a raised exception is an Except.error value.  Distance
   scores are rationals.  The langchain RecursiveCharacterTextSplitter is not
   part of this repository, so the chunking step is modelled from the spec
   (see split_text below). -/

-- ===========================================================================
-- Data model
-- ===========================================================================

/-- A langchain Document as built by ingest_url: page content plus metadata
(source URL, url_hash, chunk_index, total_chunks).  source is optional because
a retrieved document may lack the key, in which case
metadata.get of source with default unknown yields the string unknown. -/
structure Document where
  page_content : String
  source : Option String
  url_hash : String
  chunk_index : Nat
  total_chunks : Nat
deriving DecidableEq

/-- ChatState from graph_chat.py. -/
structure ChatState where
  query : String
  urls : List String
  answer : String
  sources : List String
  used_rag : Bool
deriving DecidableEq

/-- Process-wide state touched by ingestion: the _ingested_urls set, the
vector-index contents, plus two observation logs: fetchLog records each
requests.get call and attemptLog records each per-URL ingestion attempt made
by ingest_node (the try body being entered for that URL). -/
structure IngestState where
  ingested : List String
  vectorIndex : List Document
  fetchLog : List String
  attemptLog : List String
deriving DecidableEq

/-- Default relevance threshold: the RELEVANCE_THRESHOLD option read by
graph_chat.py, default 0.5. -/
def RELEVANCE_THRESHOLD : ℚ := 1/2

/-- The external collaborators of the core, as deterministic functions:
md5 hashing of a URL string, HTTP fetch (raise_for_status folded in),
BeautifulSoup text extraction, the scored similarity search of the vector
store, the RetrievalQA grounded answer (its internal retrieval and LLM call),
and the bare llm.invoke completion.  Except.error models a raised exception. -/
structure RagEnv where
  hashFn : String → String
  fetch : String → Except String String
  extractText : String → String
  search : String → Except String (List (Document × ℚ))
  qaAnswer : String → Except String String
  llm : String → Except String String
  threshold : ℚ := RELEVANCE_THRESHOLD

-- ===========================================================================
-- URL extractor (url_tools.py: URL_PATTERN = https?://\S+ ; extract_urls)
-- ===========================================================================

/-- Python regex whitespace class \s restricted to ASCII, as used by \S+. -/
def isWS (c : Char) : Bool :=
  c == ' ' || c == '\t' || c == '\n' || c == '\r' || c == '\x0b' || c == '\x0c'

def httpMark : List Char := ['h', 't', 't', 'p', ':', '/', '/']

def httpsMark : List Char := ['h', 't', 't', 'p', 's', ':', '/', '/']

/-- One attempted regex match of https?://\S+ at the head of l: the literal
alternative (greedy s? tries https first), then a non-empty maximal run of
non-whitespace characters.  Returns the match and the remaining suffix. -/
def tryMatch (l : List Char) : Option (List Char × List Char) :=
  if httpsMark.isPrefixOf l then
    if ((l.drop 8).takeWhile (fun c => !isWS c)).isEmpty then none
    else some (httpsMark ++ (l.drop 8).takeWhile (fun c => !isWS c),
               (l.drop 8).dropWhile (fun c => !isWS c))
  else if httpMark.isPrefixOf l then
    if ((l.drop 7).takeWhile (fun c => !isWS c)).isEmpty then none
    else some (httpMark ++ (l.drop 7).takeWhile (fun c => !isWS c),
               (l.drop 7).dropWhile (fun c => !isWS c))
  else none

/-- The non-overlapping left-to-right scan of re.findall: at each position
try a match; after a match of length k resume k characters later (skip
counts the remaining characters of the current match still to be passed). -/
def scanAux : Nat → Nat → List Char → List (Nat × List Char)
  | _, _, [] => []
  | Nat.succ s, pos, _ :: cs => scanAux s (pos + 1) cs
  | 0, pos, c :: cs =>
    match tryMatch (c :: cs) with
    | some mr => (pos, mr.1) :: scanAux (mr.1.length - 1) (pos + 1) cs
    | none => scanAux 0 (pos + 1) cs

/-- Model of urllib.parse.urlparse restricted to what extract_urls reads:
the netloc is the text after the scheme marker up to the first of / ? #.
(urlparse ValueError cases are not modelled; the code silently skips them.) -/
def netlocOf (u : List Char) : List Char :=
  (if httpsMark.isPrefixOf u then u.drop 8
   else if httpMark.isPrefixOf u then u.drop 7
   else u).takeWhile (fun c => !(c == '/' || c == '?' || c == '#'))

/-- Model of urlparse scheme extraction: text before the first colon. -/
def schemeOf (u : List Char) : List Char := u.takeWhile (fun c => !(c == ':'))

def httpScheme : List Char := ['h', 't', 't', 'p']

def httpsScheme : List Char := ['h', 't', 't', 'p', 's']

/-- The validation step of extract_urls: parsed.scheme in [http, https]
(every regex candidate starts with the literal marker) and parsed.netloc
non-empty. -/
def validURL (u : List Char) : Bool :=
  (httpMark.isPrefixOf u || httpsMark.isPrefixOf u) && !(netlocOf u).isEmpty

/-- Regex matches of the pattern together with their start positions,
filtered by URL validation. -/
def extractPosOf (s : String) : List (Nat × List Char) :=
  (scanAux 0 0 s.toList).filter (fun pm => validURL pm.2)

/-- extract_urls from url_tools.py. -/
def extract_urls (s : String) : List String :=
  (extractPosOf s).map (fun pm => String.mk pm.2)

-- ===========================================================================
-- Text splitter.  Modelled from the spec: the langchain
-- RecursiveCharacterTextSplitter invoked by ingest_url is not part of this
-- repository; the model follows spec section 4.2 step 5: "Split text into
-- overlapping chunks: target chunk size 1000 characters, overlap 200
-- characters, splitting preferentially at paragraph, then line, then
-- sentence, then word boundaries, then raw character boundaries as last
-- resort (first separator in that priority order that successfully divides
-- the text is used)", where successfully dividing means every resulting
-- piece fits the chunk size; pieces keep their separator so that the chunks
-- cover the whole input with no gaps, and consecutive chunks share an
-- overlap of at most 200 characters taken from the end of the previous
-- chunk.
-- ===========================================================================

def totalLen (l : List (List Char)) : Nat := (l.map List.length).sum

/-- Splits the text at each occurrence of sep, keeping the separator attached
to the preceding piece, so that the concatenation of all pieces is the text.
acc holds the current piece reversed.  An empty separator closes a piece
after every character (raw character boundaries). -/
def splitKeepAux (sep : List Char) : List Char → List Char → List (List Char)
  | acc, [] => [acc.reverse]
  | acc, c :: cs =>
    if sep.reverse.isPrefixOf (c :: acc) then
      (c :: acc).reverse :: splitKeepAux sep [] cs
    else
      splitKeepAux sep (c :: acc) cs

/-- Modelled from the spec: pieces of the text at the given separator. -/
def piecesBy (sep t : List Char) : List (List Char) := splitKeepAux sep [] t

/-- Modelled from the spec: a separator successfully divides the text when
every resulting piece fits within the chunk size. -/
def divides (size : Nat) (sep t : List Char) : Bool :=
  (piecesBy sep t).all (fun p => p.length ≤ size)

/-- Modelled from the spec: the first separator in priority order that
successfully divides the text (falling through to the raw-character
separator, which always divides). -/
def chooseSep (size : Nat) : List (List Char) → List Char → List Char
  | [], _ => []
  | s :: rest, t => if divides size s t then s else chooseSep size rest t

/-- Separator priority: paragraph, line, sentence, word, raw character. -/
def sepPriority : List (List Char) := [['\n', '\n'], ['\n'], ['.', ' '], [' '], []]

/-- The maximal suffix of the current chunk kept as overlap for the next
chunk: total length at most ov, and small enough that the incoming piece of
length plen still fits within size. -/
def overlapKeep (ov size plen : Nat) : List (List Char) → List (List Char)
  | [] => []
  | x :: xs =>
    if totalLen (x :: xs) ≤ ov ∧ totalLen (x :: xs) + plen ≤ size then x :: xs
    else overlapKeep ov size plen xs

/-- Modelled from the spec: greedy merge of pieces into chunks of total
length at most size; when a piece does not fit, the current chunk is emitted
and the next chunk starts with an overlap suffix of it.  Each produced pair
is (overlap pieces carried from the previous chunk, fresh pieces). -/
def mergeAux (size ov : Nat) :
    List (List Char) → List (List Char) → List (List Char) →
    List (List (List Char) × List (List Char))
  | ovp, fresh, [] => [(ovp, fresh)]
  | ovp, fresh, p :: ps =>
    if ovp ++ fresh = [] ∨ totalLen (ovp ++ fresh) + p.length ≤ size then
      mergeAux size ov ovp (fresh ++ [p]) ps
    else
      (ovp, fresh) :: mergeAux size ov (overlapKeep ov size p.length (ovp ++ fresh)) [p] ps

/-- Modelled from the spec: the chunk decomposition of the text, each chunk
given as (overlap pieces, fresh pieces). -/
def chunkStructure (size ov : Nat) (t : List Char) : List (List (List Char) × List (List Char)) :=
  mergeAux size ov [] [] (piecesBy (chooseSep size sepPriority t) t)

/-- Modelled from the spec: the chunking step (chunk_size, chunk_overlap). -/
def split_text (size ov : Nat) (t : List Char) : List (List Char) :=
  (chunkStructure size ov t).map (fun pr => (pr.1 ++ pr.2).flatten)

/-- String-level chunking as used by ingest_url: size 1000, overlap 200. -/
def split_text_s (s : String) : List String :=
  (split_text 1000 200 s.toList).map (fun l => String.mk l)

-- ===========================================================================
-- Page ingestor (url_tools.py: ingest_url)
-- ===========================================================================

/-- Adding an element to the _ingested_urls set. -/
def insertHash (h : String) (l : List String) : List String :=
  if h ∈ l then l else l ++ [h]

/-- The documents built from the chunks, with enumerate-style metadata. -/
def mkDocs (url url_hash : String) (chunks : List String) : List Document :=
  ((List.range chunks.length).zip chunks).map
    (fun ic => ⟨ic.2, some url, url_hash, ic.1, chunks.length⟩)

/-- ingest_url from url_tools.py.  The skip check, the fetch (recorded in
fetchLog), the 50-character content gate, chunking, document construction,
vector-index insertion, and the cache update which happens only on success.
The two except clauses are the two error results. -/
def ingest_url (env : RagEnv) (url : String) (force : Bool) (st : IngestState) :
    Except String (List Document) × IngestState :=
  if force = false ∧ env.hashFn url ∈ st.ingested then
    (Except.ok [], st)
  else
    match env.fetch url with
    | Except.error e =>
      (Except.error ( "Failed to fetch URL: " ++ e),
       {st with fetchLog := st.fetchLog ++ [url]})
    | Except.ok html =>
      if (env.extractText html).length < 50 then
        (Except.error ( "Error processing URL: Insufficient content: only " ++
            toString (env.extractText html).length ++ " characters"),
         {st with fetchLog := st.fetchLog ++ [url]})
      else
        (Except.ok (mkDocs url (env.hashFn url) (split_text_s (env.extractText html))),
         {st with
            fetchLog := st.fetchLog ++ [url],
            vectorIndex := st.vectorIndex ++
              mkDocs url (env.hashFn url) (split_text_s (env.extractText html)),
            ingested := insertHash (env.hashFn url) st.ingested})

-- ===========================================================================
-- Orchestrator (graph_chat.py)
-- ===========================================================================

/-- classify_node: extract URLs, reset sources and used_rag. -/
def classify_node (st : ChatState) : ChatState :=
  {st with urls := extract_urls st.query, sources := [], used_rag := false}

/-- route_classify: ingest when URLs are present. -/
def route_classify (st : ChatState) : String :=
  if st.urls = [] then "rag_query" else "ingest"

/-- ingest_node: attempt ingest_url(url, force=false) for each URL in order;
every per-URL exception is caught and logged, so the fold is total and the
chat state is returned unchanged.  attemptLog records each attempt. -/
def ingest_node (env : RagEnv) (p : ChatState × IngestState) : ChatState × IngestState :=
  (p.1,
   p.1.urls.foldl
     (fun ist url =>
        let r := ingest_url env url false ist
        {r.2 with attemptLog := r.2.attemptLog ++ [url]})
     p.2)

/-- Substring test: needle occurs inside hay (Python in operator). -/
def containsSub (needle : List Char) : List Char → Bool
  | [] => needle.isEmpty
  | c :: t => needle.isPrefixOf (c :: t) || containsSub needle t

/-- The fixed no_info_phrases list of rag_query_node. -/
def no_info_phrases : List String :=
  [ "don\x27t have enough information",
   "don\x27t have information",
   "context doesn\x27t contain",
   "not mentioned in",
   "cannot find",
   "no information"]

/-- Lowercasing, applied characterwise (model of Python str.lower on the
ASCII range relevant to the phrase list). -/
def toLowerChars (l : List Char) : List Char := l.map Char.toLower

/-- The refusal check: any phrase occurs in the lowercased answer. -/
def refusalMatch (answer : String) : Bool :=
  no_info_phrases.any (fun ph => containsSub ph.toList (toLowerChars answer.toList))

/-- The prompt of the ungrounded fallback completion. -/
def conversationalPrompt (q : String) : String :=
  "Answer this question conversationally:\n\n" ++ q

/-- The relevance gate: keep the retrieved documents whose distance is
strictly below the threshold. -/
def relevantFilter (th : ℚ) (dws : List (Document × ℚ)) : List (Document × ℚ) :=
  dws.filter (fun p => p.2 < th)

/-- metadata.get of source with default unknown. -/
def getSource (d : Document) : String := d.source.getD "unknown"

/-- The fallback block of rag_query_node: an ungrounded llm.invoke of the
conversational prompt, used_rag false, sources cleared.  An error is a raised
model exception. -/
def ungroundedStep (env : RagEnv) (st : ChatState) : Except String ChatState :=
  match env.llm (conversationalPrompt st.query) with
  | Except.error e => Except.error e
  | Except.ok content =>
    Except.ok {st with answer := content, used_rag := false, sources := []}

/-- The body of the try block of rag_query_node after a successful search:
gate on the relevance filter, run the RetrievalQA chain, scan the candidate
answer for refusal phrases.  The sources of an accepted grounded answer are
the deduplicated source URLs of the source_documents of the QA chain, which
retrieves the same top-k documents from the same vector store (not only the
documents that passed the relevance filter).  list(set(...)) is modelled by
dedup; its order is irrelevant to every claim. -/
def groundedStep (env : RagEnv) (st : ChatState) (dws : List (Document × ℚ)) :
    Except String ChatState :=
  if relevantFilter env.threshold dws = [] then
    ungroundedStep env st
  else
    match env.qaAnswer st.query with
    | Except.error e => Except.error e
    | Except.ok answer =>
      if refusalMatch answer then
        ungroundedStep env st
      else
        Except.ok {st with answer := answer, used_rag := true,
                           sources := (dws.map (fun p => getSource p.1)).dedup}

/-- rag_query_node: the try/except of the source.  A failed similarity
search, a failed QA chain, or a failed refusal-path fallback all land in the
except clause, which runs the ungrounded fallback itself; an exception
raised by that llm.invoke propagates out. -/
def rag_query_node (env : RagEnv) (st : ChatState) : Except String ChatState :=
  match env.search st.query with
  | Except.error _ => ungroundedStep env st
  | Except.ok dws =>
    match groundedStep env st dws with
    | Except.ok s => Except.ok s
    | Except.error _ => ungroundedStep env st

/-- run_chat with the compiled graph of build_graph: classify, conditional
ingest edge, then always the terminal rag_query node. -/
def run_chat (env : RagEnv) (ist : IngestState) (query : String) :
    Except String ChatState × IngestState :=
  let st1 := classify_node ⟨query, [], "", [], false⟩
  let p := if st1.urls = [] then (st1, ist) else ingest_node env (st1, ist)
  (rag_query_node env p.1, p.2)

-- ===========================================================================
-- HTTP layer (main.py)
-- ===========================================================================

/-- ChatResponse from main.py, with its field defaults. -/
structure ChatResponse where
  answer : String
  sources : Option (List String)
  used_rag : Bool := false
  status : String := "success"
deriving DecidableEq

/-- Model of Python str.strip: remove leading and trailing whitespace. -/
def pyStrip (s : String) : String :=
  String.mk (((s.toList.dropWhile isWS).reverse.dropWhile isWS).reverse)

/-- ChatRequest validation: Field(min_length=1, max_length=2000) and the
strip validator. -/
def validate_query (q : String) : Except String String :=
  if q.length < 1 ∨ q.length > 2000 then Except.error "query length out of range"
  else if pyStrip q = "" then Except.error "Query cannot be empty"
  else Except.ok (pyStrip q)

/-- The chat endpoint: validate, run the orchestration, and build the
ChatResponse from answer and sources only; used_rag is not forwarded and
keeps its default.  An Except.error is an HTTP error response. -/
def chat_endpoint (env : RagEnv) (ist : IngestState) (q : String) :
    Except String ChatResponse :=
  match validate_query q with
  | Except.error e => Except.error e
  | Except.ok q2 =>
    match (run_chat env ist q2).1 with
    | Except.ok result => Except.ok {answer := result.answer, sources := some result.sources}
    | Except.error e => Except.error ( "Failed to process query: " ++ e)

-- ===========================================================================
-- Concrete fixtures used by witnesses and counterexamples
-- ===========================================================================

/-- The empty process state at startup. -/
def ist0 : IngestState := ⟨[], [], [], []⟩

def dA : Document := ⟨ "alpha chunk", some "http://a", "ha", 0, 1⟩

def dB : Document := ⟨ "beta chunk", some "http://b", "hb", 0, 1⟩

def okLLM : String → Except String String := fun _ => Except.ok "fallback answer"

/-- Two retrieved documents, one passing the 1/2 threshold and one not; the
QA chain accepts with a non-refusing answer. -/
def env1 : RagEnv :=
  { hashFn := fun u => u
    fetch := fun _ => Except.ok ""
    extractText := id
    search := fun _ => Except.ok [(dA, 3), (dB, 9)]
    qaAnswer := fun _ => Except.ok "The sky is blue."
    llm := okLLM
    threshold := 5 }

/-- Every collaborator fails, including the fallback model call. -/
def env2 : RagEnv :=
  { hashFn := fun u => u
    fetch := fun _ => Except.error "net down"
    extractText := id
    search := fun _ => Except.error "backend down"
    qaAnswer := fun _ => Except.error "qa down"
    llm := fun _ => Except.error "model down" }

/-- Search backend down but the fallback model works. -/
def env2b : RagEnv := {env2 with llm := okLLM}

/-- A relevant document but a refusing grounded answer. -/
def env3 : RagEnv := {env1 with qaAnswer := fun _ => Except.ok "I cannot find that."}

/-- No retrieved document passes the threshold. -/
def env4 : RagEnv := {env1 with search := fun _ => Except.ok [(dB, 9)]}

/-- A 55-character extracted text. -/
def text55 : String := "0123456789012345678901234567890123456789012345678901234"

/-- Ingestion fixture: fetch succeeds and yields text55. -/
def envIngest : RagEnv :=
  { hashFn := fun u => u
    fetch := fun _ => Except.ok "page"
    extractText := fun _ => text55
    search := fun _ => Except.ok []
    qaAnswer := fun _ => Except.error "na"
    llm := okLLM }

/-- Ingestion fixture whose extracted text is under 50 characters. -/
def envShort : RagEnv := {envIngest with extractText := fun _ => "tiny"}

def c5docs : List Document := [⟨text55, some "http://w", "http://w", 0, 1⟩]

def c5st1 : IngestState := ⟨[ "http://w"], c5docs, [ "http://w"], []⟩

/-- A 66-character sample text for the chunking witness. -/
def tW : List Char :=
  String.toList "This text sample is certainly longer than fifty characters total."

-- ===========================================================================
-- Packaged specification statements
-- ===========================================================================

/-- The extractor contract of spec section 4.1 for one input: every produced
URL re-parses with scheme http or https and a non-empty netloc; the match
positions are strictly increasing (first-occurrence order) and each match
occurs verbatim at its position in the text; the produced list is exactly
the matches in scan order. -/
def extractSpecOK (s : String) : Prop :=
  (∀ u ∈ extract_urls s,
      schemeOf u.toList = httpScheme ∨ schemeOf u.toList = httpsScheme) ∧
  (∀ u ∈ extract_urls s, (netlocOf u.toList).isEmpty = false) ∧
  (extractPosOf s).Pairwise (fun a b => a.1 < b.1) ∧
  (∀ pm ∈ extractPosOf s,
      (s.toList.drop pm.1).take pm.2.length = pm.2 ∧ 0 < pm.2.length) ∧
  extract_urls s = (extractPosOf s).map (fun pm => String.mk pm.2)

/-- The chunking contract of spec section 4.2 step 5 for one input, stated
over the chunk decomposition: every chunk is at most 1000 characters; the
overlap carried into each chunk is at most 200 characters; the fresh parts
concatenate to the whole input (no gaps); each overlap is a suffix of the
previous chunk; the chunks are the joins of the decomposition; and the
separator used is the first of the priority list that successfully divides
the text. -/
def chunkingSpecOK (t : List Char) : Prop :=
  (∀ c ∈ split_text 1000 200 t, c.length ≤ 1000) ∧
  (∀ pr ∈ chunkStructure 1000 200 t, pr.1.flatten.length ≤ 200) ∧
  ((chunkStructure 1000 200 t).map (fun pr => pr.2.flatten)).flatten = t ∧
  ((chunkStructure 1000 200 t).Chain'
      (fun a b => b.1.flatten <:+ (a.1 ++ a.2).flatten)) ∧
  split_text 1000 200 t = (chunkStructure 1000 200 t).map (fun pr => (pr.1 ++ pr.2).flatten) ∧
  (∃ pre post, sepPriority = pre ++ chooseSep 1000 sepPriority t :: post ∧
      (∀ s ∈ pre, divides 1000 s t = false) ∧
      divides 1000 (chooseSep 1000 sepPriority t) t = true)

-- ===========================================================================
-- Helper lemmas: URL extractor
-- ===========================================================================

lemma mark_take_spec (mark t : List Char) :
    (mark ++ t).take (mark ++ t.takeWhile (fun c => !isWS c)).length
      = mark ++ t.takeWhile (fun c => !isWS c) := by
  obtain ⟨s, hs⟩ := List.takeWhile_prefix (l := t) (fun c => !isWS c)
  generalize t.takeWhile (fun c => !isWS c) = run at hs ⊢
  subst hs
  rw [← List.append_assoc]
  exact List.take_left' rfl

lemma tryMatch_spec {l : List Char} {mr : List Char × List Char}
    (h : tryMatch l = some mr) :
    l.take mr.1.length = mr.1 ∧ 0 < mr.1.length := by
  unfold tryMatch at h
  split at h
  · next hpre =>
    split at h
    · simp at h
    · simp only [Option.some.injEq] at h
      subst h
      obtain ⟨t, ht⟩ := List.isPrefixOf_iff_prefix.mp hpre
      subst ht
      have hd : (httpsMark ++ t).drop 8 = t := rfl
      constructor
      · show (httpsMark ++ t).take
            (httpsMark ++ ((httpsMark ++ t).drop 8).takeWhile (fun c => !isWS c)).length
            = httpsMark ++ ((httpsMark ++ t).drop 8).takeWhile (fun c => !isWS c)
        rw [hd]
        exact mark_take_spec httpsMark t
      · show 0 < (httpsMark ++ ((httpsMark ++ t).drop 8).takeWhile (fun c => !isWS c)).length
        simp [httpsMark]
  · split at h
    · next hpre2 =>
      split at h
      · simp at h
      · simp only [Option.some.injEq] at h
        subst h
        obtain ⟨t, ht⟩ := List.isPrefixOf_iff_prefix.mp hpre2
        subst ht
        have hd : (httpMark ++ t).drop 7 = t := rfl
        constructor
        · show (httpMark ++ t).take
              (httpMark ++ ((httpMark ++ t).drop 7).takeWhile (fun c => !isWS c)).length
              = httpMark ++ ((httpMark ++ t).drop 7).takeWhile (fun c => !isWS c)
          rw [hd]
          exact mark_take_spec httpMark t
        · show 0 < (httpMark ++ ((httpMark ++ t).drop 7).takeWhile (fun c => !isWS c)).length
          simp [httpMark]
    · simp at h

lemma scanAux_spec : ∀ (l : List Char) (skip pos : Nat) (pm : Nat × List Char),
    pm ∈ scanAux skip pos l →
    pos ≤ pm.1 ∧ (l.drop (pm.1 - pos)).take pm.2.length = pm.2 ∧ 0 < pm.2.length := by
  intro l
  induction l with
  | nil => intro skip pos pm h; simp [scanAux] at h
  | cons c cs ih =>
    intro skip pos pm h
    have step : ∀ k, pm ∈ scanAux k (pos + 1) cs →
        pos ≤ pm.1 ∧ ((c :: cs).drop (pm.1 - pos)).take pm.2.length = pm.2 ∧
          0 < pm.2.length := by
      intro k hk
      obtain ⟨h1, h2, h3⟩ := ih k (pos + 1) pm hk
      refine ⟨by omega, ?_, h3⟩
      have he : pm.1 - pos = (pm.1 - (pos + 1)) + 1 := by omega
      rw [he, List.drop_succ_cons]
      exact h2
    cases skip with
    | succ s => exact step s (by simpa [scanAux] using h)
    | zero =>
      cases htm : tryMatch (c :: cs) with
      | none =>
        simp only [scanAux, htm] at h
        exact step 0 h
      | some mr =>
        simp only [scanAux, htm] at h
        rcases List.mem_cons.mp h with heq | hmem
        · subst heq
          refine ⟨Nat.le_refl pos, ?_, (tryMatch_spec htm).2⟩
          simp only [Nat.sub_self, List.drop_zero]
          exact (tryMatch_spec htm).1
        · exact step (mr.1.length - 1) hmem

lemma scanAux_pairwise : ∀ (l : List Char) (skip pos : Nat),
    (scanAux skip pos l).Pairwise (fun a b => a.1 < b.1) := by
  intro l
  induction l with
  | nil => intro skip pos; simp [scanAux]
  | cons c cs ih =>
    intro skip pos
    cases skip with
    | succ s => simpa [scanAux] using ih s (pos + 1)
    | zero =>
      cases htm : tryMatch (c :: cs) with
      | none => simpa [scanAux, htm] using ih 0 (pos + 1)
      | some mr =>
        simp only [scanAux, htm]
        refine List.Pairwise.cons ?_ (ih _ _)
        intro b hb
        have := (scanAux_spec cs _ (pos + 1) b hb).1
        simpa using Nat.lt_of_lt_of_le (Nat.lt_succ_self pos) this

lemma schemeOf_http (t : List Char) : schemeOf (httpMark ++ t) = httpScheme := rfl

lemma schemeOf_https (t : List Char) : schemeOf (httpsMark ++ t) = httpsScheme := rfl

-- ===========================================================================
-- Helper lemmas: orchestrator plumbing
-- ===========================================================================

lemma ingest_node_fst (env : RagEnv) (st : ChatState) (ist : IngestState) :
    (ingest_node env (st, ist)).1 = st := rfl

lemma run_chat_fst (env : RagEnv) (ist : IngestState) (q : String) :
    (run_chat env ist q).1 = rag_query_node env ⟨q, extract_urls q, "", [], false⟩ := by
  by_cases h : extract_urls q = []
  · simp [run_chat, classify_node, h]
  · simp [run_chat, classify_node, ingest_node, h]

lemma rag_grounded (env : RagEnv) (st : ChatState) {dws : List (Document × ℚ)}
    {ans : String}
    (hs : env.search st.query = Except.ok dws)
    (hne : relevantFilter env.threshold dws ≠ [])
    (hqa : env.qaAnswer st.query = Except.ok ans)
    (href : refusalMatch ans = false) :
    rag_query_node env st =
      Except.ok {st with answer := ans, used_rag := true,
                         sources := (dws.map (fun p => getSource p.1)).dedup} := by
  simp [rag_query_node, groundedStep, hs, hne, hqa, href]

lemma rag_refusal (env : RagEnv) (st : ChatState) {dws : List (Document × ℚ)}
    {ans c : String}
    (hs : env.search st.query = Except.ok dws)
    (hne : relevantFilter env.threshold dws ≠ [])
    (hqa : env.qaAnswer st.query = Except.ok ans)
    (href : refusalMatch ans = true)
    (hl : env.llm (conversationalPrompt st.query) = Except.ok c) :
    rag_query_node env st =
      Except.ok {st with answer := c, used_rag := false, sources := []} := by
  simp [rag_query_node, groundedStep, ungroundedStep, hs, hne, hqa, href, hl]

lemma rag_nopass (env : RagEnv) (st : ChatState) {dws : List (Document × ℚ)} {c : String}
    (hs : env.search st.query = Except.ok dws)
    (hfe : relevantFilter env.threshold dws = [])
    (hl : env.llm (conversationalPrompt st.query) = Except.ok c) :
    rag_query_node env st =
      Except.ok {st with answer := c, used_rag := false, sources := []} := by
  simp [rag_query_node, groundedStep, ungroundedStep, hs, hfe, hl]

lemma rag_search_down (env : RagEnv) (st : ChatState) {e : String} {c : String}
    (hs : env.search st.query = Except.error e)
    (hl : env.llm (conversationalPrompt st.query) = Except.ok c) :
    rag_query_node env st =
      Except.ok {st with answer := c, used_rag := false, sources := []} := by
  simp [rag_query_node, ungroundedStep, hs, hl]

lemma rag_total (env : RagEnv) (st : ChatState) {c : String}
    (hl : env.llm (conversationalPrompt st.query) = Except.ok c) :
    ∃ s, rag_query_node env st = Except.ok s := by
  rcases hs : env.search st.query with e | dws
  · exact ⟨_, rag_search_down env st hs hl⟩
  · by_cases hfe : relevantFilter env.threshold dws = []
    · exact ⟨_, rag_nopass env st hs hfe hl⟩
    · rcases hqa : env.qaAnswer st.query with e2 | ans
      · exact ⟨{st with answer := c, used_rag := false, sources := []}, by
          simp [rag_query_node, groundedStep, ungroundedStep, hs, hfe, hqa, hl]⟩
      · by_cases href : refusalMatch ans
        · exact ⟨_, rag_refusal env st hs hfe hqa href hl⟩
        · exact ⟨_, rag_grounded env st hs hfe hqa (by simpa using href)⟩

-- ===========================================================================
-- Helper lemmas: ingestion
-- ===========================================================================

lemma ingest_url_attemptLog (env : RagEnv) (url : String) (force : Bool)
    (st : IngestState) :
    ((ingest_url env url force st).2).attemptLog = st.attemptLog := by
  unfold ingest_url
  split
  · rfl
  · rcases hf : env.fetch url with e | html <;> simp only [hf]
    split <;> rfl

lemma ingest_fold_attemptLog (env : RagEnv) :
    ∀ (urls : List String) (ist : IngestState),
      (urls.foldl
        (fun ist url =>
          let r := ingest_url env url false ist
          {r.2 with attemptLog := r.2.attemptLog ++ [url]})
        ist).attemptLog
      = ist.attemptLog ++ urls := by
  intro urls
  induction urls with
  | nil => intro ist; simp
  | cons u us ih =>
    intro ist
    simp only [List.foldl_cons]
    rw [ih]
    simp [ingest_url_attemptLog]

lemma mem_insertHash (h : String) (l : List String) : h ∈ insertHash h l := by
  unfold insertHash
  split
  · assumption
  · simp

-- ===========================================================================
-- Helper lemmas: text splitter
-- ===========================================================================

lemma totalLen_append (a b : List (List Char)) :
    totalLen (a ++ b) = totalLen a + totalLen b := by
  simp [totalLen]

lemma totalLen_snoc (l : List (List Char)) (p : List Char) :
    totalLen (l ++ [p]) = totalLen l + p.length := by
  simp [totalLen]

lemma splitKeepAux_flatten (sep : List Char) :
    ∀ (t acc : List Char), (splitKeepAux sep acc t).flatten = acc.reverse ++ t := by
  intro t
  induction t with
  | nil => intro acc; simp [splitKeepAux]
  | cons c cs ih =>
    intro acc
    unfold splitKeepAux
    split
    · simp [ih]
    · rw [ih]
      simp

lemma piecesBy_flatten (sep t : List Char) : (piecesBy sep t).flatten = t := by
  simpa using splitKeepAux_flatten sep t []

lemma piecesBy_nil_sep : ∀ t : List Char, piecesBy [] t = t.map (fun c => [c]) ++ [[]] := by
  intro t
  induction t with
  | nil => rfl
  | cons c cs ih =>
    show splitKeepAux [] [] (c :: cs) = _
    unfold splitKeepAux
    rw [if_pos (by simp [List.isPrefixOf])]
    simpa using ih

lemma divides_nil (t : List Char) : divides 1000 [] t = true := by
  simp only [divides, piecesBy_nil_sep, List.all_append, List.all_map]
  simp

lemma chooseSep_divides (size : Nat) (t : List Char)
    (hnil : divides size [] t = true) :
    ∀ seps, divides size (chooseSep size seps t) t = true := by
  intro seps
  induction seps with
  | nil => simpa [chooseSep] using hnil
  | cons s rest ih =>
    unfold chooseSep
    split
    · assumption
    · exact ih

lemma pieces_le (t : List Char) :
    ∀ p ∈ piecesBy (chooseSep 1000 sepPriority t) t, p.length ≤ 1000 := by
  have h : divides 1000 (chooseSep 1000 sepPriority t) t = true :=
    chooseSep_divides 1000 t (divides_nil t) sepPriority
  rw [divides, List.all_eq_true] at h
  intro p hp
  simpa using h p hp

lemma chooseSep_first (t : List Char) :
    ∃ pre post, sepPriority = pre ++ chooseSep 1000 sepPriority t :: post ∧
      (∀ s ∈ pre, divides 1000 s t = false) ∧
      divides 1000 (chooseSep 1000 sepPriority t) t = true := by
  simp only [sepPriority, chooseSep]
  split_ifs with h1 h2 h3 h4 h5
  · exact ⟨[], _, rfl, by simp, h1⟩
  · refine ⟨[['\n', '\n']], _, rfl, ?_, h2⟩
    intro s hs
    rw [List.mem_singleton] at hs
    subst hs
    simpa using h1
  · refine ⟨[['\n', '\n'], ['\n']], _, rfl, ?_, h3⟩
    intro s hs
    simp only [List.mem_cons, List.mem_singleton, List.not_mem_nil, or_false] at hs
    rcases hs with rfl | rfl
    · simpa using h1
    · simpa using h2
  · refine ⟨[['\n', '\n'], ['\n'], ['.', ' ']], _, rfl, ?_, h4⟩
    intro s hs
    simp only [List.mem_cons, List.mem_singleton, List.not_mem_nil, or_false] at hs
    rcases hs with rfl | rfl | rfl
    · simpa using h1
    · simpa using h2
    · simpa using h3
  · refine ⟨[['\n', '\n'], ['\n'], ['.', ' '], [' ']], [], rfl, ?_, divides_nil t⟩
    intro s hs
    simp only [List.mem_cons, List.mem_singleton, List.not_mem_nil, or_false] at hs
    rcases hs with rfl | rfl | rfl | rfl
    · simpa using h1
    · simpa using h2
    · simpa using h3
    · simpa using h4
  · exact absurd (divides_nil t) h5

lemma overlapKeep_le (ov size plen : Nat) :
    ∀ l, totalLen (overlapKeep ov size plen l) ≤ ov := by
  intro l
  induction l with
  | nil => simp [overlapKeep, totalLen]
  | cons x xs ih =>
    unfold overlapKeep
    split
    · next h => exact h.1
    · exact ih

lemma overlapKeep_fit (ov size plen : Nat) (hp : plen ≤ size) :
    ∀ l, totalLen (overlapKeep ov size plen l) + plen ≤ size := by
  intro l
  induction l with
  | nil => simpa [overlapKeep, totalLen] using hp
  | cons x xs ih =>
    unfold overlapKeep
    split
    · next h => exact h.2
    · exact ih

lemma overlapKeep_suffix (ov size plen : Nat) :
    ∀ l, overlapKeep ov size plen l <:+ l := by
  intro l
  induction l with
  | nil => simp [overlapKeep]
  | cons x xs ih =>
    unfold overlapKeep
    split
    · exact List.suffix_refl _
    · exact ih.trans (List.suffix_cons x xs)

lemma mergeAux_head (size ov : Nat) :
    ∀ (ps ovp fresh : List (List Char)),
      ∃ f rest, mergeAux size ov ovp fresh ps = (ovp, f) :: rest := by
  intro ps
  induction ps with
  | nil => intro ovp fresh; exact ⟨fresh, [], rfl⟩
  | cons p ps ih =>
    intro ovp fresh
    unfold mergeAux
    split
    · exact ih ovp (fresh ++ [p])
    · exact ⟨fresh, _, rfl⟩

lemma mergeAux_coverage (size ov : Nat) :
    ∀ (ps ovp fresh : List (List Char)),
      ((mergeAux size ov ovp fresh ps).map (fun pr => pr.2.flatten)).flatten
        = fresh.flatten ++ ps.flatten := by
  intro ps
  induction ps with
  | nil => intro ovp fresh; simp [mergeAux]
  | cons p ps ih =>
    intro ovp fresh
    unfold mergeAux
    split
    · rw [ih]
      simp
    · simp only [List.map_cons, List.flatten_cons]
      rw [ih]
      simp

lemma mergeAux_size (size ov : Nat) :
    ∀ (ps ovp fresh : List (List Char)),
      (∀ p ∈ ps, p.length ≤ size) →
      totalLen (ovp ++ fresh) ≤ size →
      ∀ pr ∈ mergeAux size ov ovp fresh ps, totalLen (pr.1 ++ pr.2) ≤ size := by
  intro ps
  induction ps with
  | nil =>
    intro ovp fresh _ hcur pr hpr
    simp only [mergeAux, List.mem_singleton] at hpr
    subst hpr
    exact hcur
  | cons p ps ih =>
    intro ovp fresh hps hcur pr hpr
    have hp : p.length ≤ size := hps p (List.mem_cons_self p ps)
    have hps2 : ∀ q ∈ ps, q.length ≤ size := fun q hq => hps q (List.mem_cons_of_mem p hq)
    unfold mergeAux at hpr
    split at hpr
    · next hcond =>
      refine ih ovp (fresh ++ [p]) hps2 ?_ pr hpr
      have he : totalLen (ovp ++ (fresh ++ [p]))
          = totalLen (ovp ++ fresh) + p.length := by
        rw [← List.append_assoc, totalLen_snoc]
      rcases hcond with hemp | hfit
      · have : totalLen (ovp ++ fresh) = 0 := by
          rw [hemp]; simp [totalLen]
        omega
      · omega
    · next hcond =>
      rcases List.mem_cons.mp hpr with heq | hmem
      · subst heq
        exact hcur
      · refine ih _ [p] hps2 ?_ pr hmem
        have h1 := overlapKeep_fit ov size p.length hp (ovp ++ fresh)
        have h2 : totalLen (overlapKeep ov size p.length (ovp ++ fresh) ++ [p])
            = totalLen (overlapKeep ov size p.length (ovp ++ fresh)) + p.length :=
          totalLen_snoc _ p
        omega

lemma mergeAux_overlap (size ov : Nat) :
    ∀ (ps ovp fresh : List (List Char)),
      totalLen ovp ≤ ov →
      ∀ pr ∈ mergeAux size ov ovp fresh ps, totalLen pr.1 ≤ ov := by
  intro ps
  induction ps with
  | nil =>
    intro ovp fresh hO pr hpr
    simp only [mergeAux, List.mem_singleton] at hpr
    subst hpr
    exact hO
  | cons p ps ih =>
    intro ovp fresh hO pr hpr
    unfold mergeAux at hpr
    split at hpr
    · exact ih ovp (fresh ++ [p]) hO pr hpr
    · rcases List.mem_cons.mp hpr with heq | hmem
      · subst heq
        exact hO
      · exact ih _ [p] (overlapKeep_le ov size p.length (ovp ++ fresh)) pr hmem

lemma mergeAux_chain (size ov : Nat) :
    ∀ (ps ovp fresh : List (List Char)),
      (mergeAux size ov ovp fresh ps).Chain' (fun a b => b.1 <:+ a.1 ++ a.2) := by
  intro ps
  induction ps with
  | nil => intro ovp fresh; simp [mergeAux]
  | cons p ps ih =>
    intro ovp fresh
    unfold mergeAux
    split
    · exact ih ovp (fresh ++ [p])
    · obtain ⟨f, rest, heq⟩ :=
        mergeAux_head size ov ps (overlapKeep ov size p.length (ovp ++ fresh)) [p]
      rw [heq]
      refine List.Chain'.cons ?_ ?_
      · exact overlapKeep_suffix ov size p.length (ovp ++ fresh)
      · rw [← heq]
        exact ih _ [p]

lemma flatten_suffix {a b : List (List Char)} (h : a <:+ b) :
    a.flatten <:+ b.flatten := by
  obtain ⟨t, ht⟩ := h
  subst ht
  exact ⟨t.flatten, (List.flatten_append t a).symm⟩

-- ===========================================================================
-- Claims
-- ===========================================================================

/-- C8: for every text input, the URL Extractor returns an ordered sequence in
which every element re-parses as a URL with scheme exactly http or https and a
non-empty host; the order equals first-occurrence order in the input text
(strictly increasing match positions, each match occurring verbatim at its
position); duplicates are not deduplicated (shown at a duplicated input); and
empty input yields an empty sequence. -/
theorem c8_extract_urls :
    (∀ s : String, extractSpecOK s) ∧
    extract_urls "" = [] ∧
    extract_urls "see http://a.b/c and http://a.b/c again"
      = [ "http://a.b/c", "http://a.b/c"] := by
  refine ⟨?_, rfl, by decide⟩
  intro s
  refine ⟨?_, ?_, ?_, ?_, rfl⟩
  · intro u hu
    simp only [extract_urls, List.mem_map] at hu
    obtain ⟨pm, hpm, rfl⟩ := hu
    obtain ⟨p, m⟩ := pm
    have hval : validURL m = true := (List.mem_filter.mp hpm).2
    simp only [validURL, Bool.and_eq_true, Bool.or_eq_true] at hval
    have htl : (String.mk m).toList = m := rfl
    rw [htl]
    rcases hval.1 with hpre | hpre
    · obtain ⟨t, ht⟩ := List.isPrefixOf_iff_prefix.mp hpre
      rw [← ht]
      exact Or.inl (schemeOf_http t)
    · obtain ⟨t, ht⟩ := List.isPrefixOf_iff_prefix.mp hpre
      rw [← ht]
      exact Or.inr (schemeOf_https t)
  · intro u hu
    simp only [extract_urls, List.mem_map] at hu
    obtain ⟨pm, hpm, rfl⟩ := hu
    obtain ⟨p, m⟩ := pm
    have hval : validURL m = true := (List.mem_filter.mp hpm).2
    simp only [validURL, Bool.and_eq_true] at hval
    have htl : (String.mk m).toList = m := rfl
    rw [htl]
    simpa using hval.2
  · exact List.Pairwise.filter _ (scanAux_pairwise s.toList 0 0)
  · intro pm hpm
    have hm : pm ∈ scanAux 0 0 s.toList := List.mem_of_mem_filter hpm
    have h := scanAux_spec s.toList 0 0 pm hm
    exact ⟨by simpa using h.2.1, h.2.2⟩

/-- Witness for c8_extract_urls: the quantified contract applied to a
concrete input containing one URL. -/
theorem c8_extract_urls_witness :
    schemeOf (String.toList "http://a.b") = httpScheme ∨
    schemeOf (String.toList "http://a.b") = httpsScheme :=
  (c8_extract_urls.1 "http://a.b").1 "http://a.b" (by decide)

/-- C9: for every extracted page text of length at least 50 characters, the
chunking step with chunk size 1000 and overlap 200 produces chunks each at
most 1000 characters long, consecutive chunks overlapping by at most 200
characters (each carried overlap being a suffix of the previous chunk),
together covering the whole input text with no gaps, splitting at the first
separator in the priority order paragraph, line, sentence, word, raw
character that successfully divides the text.  The splitter is modelled from
the spec (see split_text). -/
theorem c9_chunking (t : List Char) (_h50 : 50 ≤ t.length) : chunkingSpecOK t := by
  refine ⟨?_, ?_, ?_, ?_, rfl, chooseSep_first t⟩
  · intro c hc
    simp only [split_text, List.mem_map] at hc
    obtain ⟨pr, hpr, rfl⟩ := hc
    have hb := mergeAux_size 1000 200 (piecesBy (chooseSep 1000 sepPriority t) t) [] []
        (pieces_le t) (by simp [totalLen]) pr (by simpa [chunkStructure] using hpr)
    calc (pr.1 ++ pr.2).flatten.length = totalLen (pr.1 ++ pr.2) := by
          simp [totalLen, List.length_flatten]
      _ ≤ 1000 := hb
  · intro pr hpr
    have hb := mergeAux_overlap 1000 200 (piecesBy (chooseSep 1000 sepPriority t) t) [] []
        (by simp [totalLen]) pr (by simpa [chunkStructure] using hpr)
    calc pr.1.flatten.length = totalLen pr.1 := by simp [totalLen, List.length_flatten]
      _ ≤ 200 := hb
  · have h1 := mergeAux_coverage 1000 200 (piecesBy (chooseSep 1000 sepPriority t) t) [] []
    simpa [chunkStructure, piecesBy_flatten] using h1
  · have h4 := mergeAux_chain 1000 200 (piecesBy (chooseSep 1000 sepPriority t) t) [] []
    exact List.Chain'.imp (fun a b hab => flatten_suffix hab) h4

/-- Witness for c9_chunking at a concrete 66-character text. -/
theorem c9_chunking_witness : chunkingSpecOK tW :=
  c9_chunking tW (by decide)

/-- C4: the relevance gate keeps exactly the retrieved chunks whose distance
is strictly less than the configured threshold (code default 0.5 = 1/2), and
for every query for which no retrieved chunk is strictly below the threshold,
run_chat returns used_rag false, empty sources, and the ungrounded
conversational completion of the raw query. -/
theorem c4_relevance_gate :
    (∀ (th : ℚ) (dws : List (Document × ℚ)) (p : Document × ℚ),
        p ∈ relevantFilter th dws ↔ p ∈ dws ∧ p.2 < th) ∧
    RELEVANCE_THRESHOLD = 1/2 ∧
    (∀ (env : RagEnv) (ist : IngestState) (q a : String)
        (dws : List (Document × ℚ)),
        env.search q = Except.ok dws →
        (∀ p ∈ dws, ¬ p.2 < env.threshold) →
        env.llm (conversationalPrompt q) = Except.ok a →
        (run_chat env ist q).1 = Except.ok ⟨q, extract_urls q, a, [], false⟩) := by
  refine ⟨?_, rfl, ?_⟩
  · intro th dws p
    simp [relevantFilter]
  · intro env ist q a dws hs hnone hl
    rw [run_chat_fst]
    have hfe : relevantFilter env.threshold dws = [] := by
      simp only [relevantFilter, List.filter_eq_nil_iff]
      intro p hp
      simpa using hnone p hp
    exact rag_nopass env ⟨q, extract_urls q, "", [], false⟩ hs hfe hl

/-- Witness for c4_relevance_gate: one retrieved chunk, not passing; the
result is the ungrounded fallback. -/
theorem c4_relevance_gate_witness :
    (run_chat env4 ist0 "hi").1
      = Except.ok ⟨ "hi", extract_urls "hi", "fallback answer", [], false⟩ :=
  c4_relevance_gate.2.2 env4 ist0 "hi" "fallback answer" [(dB, 9)] rfl
    (by decide) rfl

/-- C3: for every run in which at least one chunk passes the relevance filter
but the candidate answer matches a refusal phrase (case-insensitively), the
candidate is discarded and the final result has used_rag false, empty
sources, and the ungrounded conversational completion of the raw query. -/
theorem c3_refusal_fallback (env : RagEnv) (ist : IngestState) (q ans c : String)
    (dws : List (Document × ℚ))
    (hs : env.search q = Except.ok dws)
    (hne : relevantFilter env.threshold dws ≠ [])
    (hqa : env.qaAnswer q = Except.ok ans)
    (href : refusalMatch ans = true)
    (hl : env.llm (conversationalPrompt q) = Except.ok c) :
    (run_chat env ist q).1 = Except.ok ⟨q, extract_urls q, c, [], false⟩ := by
  rw [run_chat_fst]
  exact rag_refusal env ⟨q, extract_urls q, "", [], false⟩ hs hne hqa href hl

/-- Witness for c3_refusal_fallback: a passing chunk but a refusing grounded
answer (containing the phrase cannot find) falls back to the ungrounded
completion. -/
theorem c3_refusal_fallback_witness :
    (run_chat env3 ist0 "q").1
      = Except.ok ⟨ "q", extract_urls "q", "fallback answer", [], false⟩ :=
  c3_refusal_fallback env3 ist0 "q" "I cannot find that." "fallback answer"
    [(dA, 3), (dB, 9)] rfl (by decide) rfl (by decide) rfl

/-- C1 counterexample: with two retrieved chunks of which only the first
passes the relevance gate, the accepted grounded result still lists the
source URL of the non-passing chunk, because the code draws sources from the
QA chain source documents (the full retrieval), not from the passing chunks
alone: the claim that no URL of a non-passing chunk appears in sources fails
here. -/
theorem c1_sources_counterexample :
    env1.search "q" = Except.ok [(dA, 3), (dB, 9)] ∧
    relevantFilter env1.threshold [(dA, 3), (dB, 9)] = [(dA, 3)] ∧
    dA.source = some "http://a" ∧ dB.source = some "http://b" ∧
    (run_chat env1 ist0 "q").1
      = Except.ok ⟨ "q", [], "The sky is blue.", [ "http://a", "http://b"], true⟩ ∧
    "http://b" ∈ ([ "http://a", "http://b"] : List String) := by
  refine ⟨rfl, by decide, rfl, rfl, ?_, by decide⟩
  rfl

/-- C1 amended: when at least one chunk passes the filter and the grounded
answer contains no refusal phrase, the result has used_rag true and sources
equal to the de-duplicated source URLs of all documents returned by the
retrieval (the QA chain source documents), not restricted to the passing
chunks. -/
theorem c1_sources_amended (env : RagEnv) (ist : IngestState) (q ans : String)
    (dws : List (Document × ℚ))
    (hs : env.search q = Except.ok dws)
    (hne : relevantFilter env.threshold dws ≠ [])
    (hqa : env.qaAnswer q = Except.ok ans)
    (href : refusalMatch ans = false) :
    (run_chat env ist q).1
      = Except.ok ⟨q, extract_urls q, ans,
          (dws.map (fun p => getSource p.1)).dedup, true⟩ ∧
    ((dws.map (fun p => getSource p.1)).dedup).Nodup ∧
    (∀ x, x ∈ (dws.map (fun p => getSource p.1)).dedup ↔
          x ∈ dws.map (fun p => getSource p.1)) := by
  refine ⟨?_, List.nodup_dedup _, fun x => List.mem_dedup⟩
  rw [run_chat_fst]
  exact rag_grounded env ⟨q, extract_urls q, "", [], false⟩ hs hne hqa href

/-- Witness for c1_sources_amended at the concrete fixture. -/
theorem c1_sources_amended_witness :
    (run_chat env1 ist0 "q").1
      = Except.ok ⟨ "q", extract_urls "q", "The sky is blue.",
          (([(dA, 3), (dB, 9)] : List (Document × ℚ)).map
            (fun p => getSource p.1)).dedup, true⟩ :=
  (c1_sources_amended env1 ist0 "q" "The sky is blue." [(dA, 3), (dB, 9)]
    rfl (by decide) rfl (by decide)).1

/-- C2 counterexample: a well-formed query (non-empty, far under 2000
characters) on which the similarity search fails and the fallback model call
itself fails: the model exception propagates out of run_chat, so not every
internal failure is absorbed. -/
theorem c2_error_counterexample :
    (0 < "hello".length ∧ "hello".length ≤ 2000) ∧
    (run_chat env2 ist0 "hello").1 = Except.error "model down" :=
  ⟨⟨by decide, by decide⟩, rfl⟩

/-- C2 amended: run_chat itself performs no input validation (that lives in
the HTTP layer); fetch and similarity-search failures are absorbed whenever
the fallback model call succeeds: the call then returns a normal result, and
a similarity-search failure yields used_rag false, empty sources and the
ungrounded answer.  A failure of the model call itself propagates out. -/
theorem c2_error_amended (env : RagEnv) (ist : IngestState) (q a : String)
    (hl : env.llm (conversationalPrompt q) = Except.ok a) :
    (∃ st, (run_chat env ist q).1 = Except.ok st) ∧
    (∀ e, env.search q = Except.error e →
      (run_chat env ist q).1 = Except.ok ⟨q, extract_urls q, a, [], false⟩) := by
  constructor
  · rw [run_chat_fst]
    exact rag_total env ⟨q, extract_urls q, "", [], false⟩ hl
  · intro e hs
    rw [run_chat_fst]
    exact rag_search_down env ⟨q, extract_urls q, "", [], false⟩ hs hl

/-- Witness for c2_error_amended: search backend down, fallback model up. -/
theorem c2_error_amended_witness :
    (run_chat env2b ist0 "hi").1
      = Except.ok ⟨ "hi", extract_urls "hi", "fallback answer", [], false⟩ :=
  (c2_error_amended env2b ist0 "hi" "fallback answer" rfl).2 "backend down" rfl

/-- C5: after a successful first ingestion of a URL not previously ingested,
a second non-forced call returns the empty chunk sequence and leaves the
state unchanged (in particular no fetch is recorded), so exactly one fetch
happens across the two calls; and a forced call always performs a fetch
whatever the prior state. -/
theorem c5_ingest_dedup (env : RagEnv) (url : String) (st0 st1 : IngestState)
    (docs : List Document)
    (h1 : env.hashFn url ∉ st0.ingested)
    (h2 : ingest_url env url false st0 = (Except.ok docs, st1)) :
    ingest_url env url false st1 = (Except.ok [], st1) ∧
    st1.fetchLog = st0.fetchLog ++ [url] ∧
    (∀ st : IngestState, ((ingest_url env url true st).2).fetchLog
        = st.fetchLog ++ [url]) := by
  have hcond : ¬ (false = false ∧ env.hashFn url ∈ st0.ingested) := by
    rintro ⟨_, hmem⟩
    exact h1 hmem
  unfold ingest_url at h2
  rw [if_neg hcond] at h2
  rcases hf : env.fetch url with e | html
  · simp only [hf] at h2
    exact absurd h2 (by simp)
  · simp only [hf] at h2
    by_cases hlen : (env.extractText html).length < 50
    · rw [if_pos hlen] at h2
      exact absurd h2 (by simp)
    · rw [if_neg hlen] at h2
      rw [Prod.mk.injEq] at h2
      obtain ⟨_h2a, h2b⟩ := h2
      subst h2b
      refine ⟨?_, rfl, ?_⟩
      · have hmem2 : env.hashFn url ∈ insertHash (env.hashFn url) st0.ingested :=
          mem_insertHash _ _
        unfold ingest_url
        rw [if_pos ⟨rfl, hmem2⟩]
      · intro st
        unfold ingest_url
        rw [if_neg (by simp)]
        rcases hf2 : env.fetch url with e2 | html2
        · simp only [hf2]
        · simp only [hf2]
          by_cases hl2 : (env.extractText html2).length < 50
          · rw [if_pos hl2]
          · rw [if_neg hl2]

/-- Witness for c5_ingest_dedup at a concrete environment: the second call
returns no chunks and the two calls fetch exactly once. -/
theorem c5_ingest_dedup_witness :
    ingest_url envIngest "http://w" false c5st1 = (Except.ok [], c5st1) ∧
    c5st1.fetchLog = ist0.fetchLog ++ [ "http://w"] := by
  have h := c5_ingest_dedup envIngest "http://w" ist0 c5st1 c5docs
      (by decide) (by rfl)
  exact ⟨h.1, h.2.1⟩

/-- C6: a fetched page whose extracted text is under 50 characters makes
ingest_url raise an ingestion failure, insert zero chunks into the vector
index, and leave the ingested-URL set unchanged. -/
theorem c6_short_content (env : RagEnv) (url : String) (force : Bool)
    (st : IngestState) (html : String)
    (hskip : force = true ∨ env.hashFn url ∉ st.ingested)
    (hf : env.fetch url = Except.ok html)
    (hlen : (env.extractText html).length < 50) :
    (∃ e, (ingest_url env url force st).1 = Except.error e) ∧
    ((ingest_url env url force st).2).vectorIndex = st.vectorIndex ∧
    ((ingest_url env url force st).2).ingested = st.ingested := by
  have hcond : ¬ (force = false ∧ env.hashFn url ∈ st.ingested) := by
    rintro ⟨hforce, hmem⟩
    rcases hskip with h | h
    · subst h
      simp at hforce
    · exact h hmem
  unfold ingest_url
  rw [if_neg hcond]
  simp only [hf]
  rw [if_pos hlen]
  exact ⟨⟨_, rfl⟩, rfl, rfl⟩

/-- Witness for c6_short_content: a page with 4 characters of extracted text
is rejected with no state change. -/
theorem c6_short_content_witness :
    (∃ e, (ingest_url envShort "http://w" false ist0).1 = Except.error e) ∧
    ((ingest_url envShort "http://w" false ist0).2).vectorIndex = ist0.vectorIndex ∧
    ((ingest_url envShort "http://w" false ist0).2).ingested = ist0.ingested :=
  c6_short_content envShort "http://w" false ist0 "page" (Or.inr (by decide)) rfl
    (by decide)

/-- C7: the ingest stage attempts ingest_url(url, force=false) on each URL in
order (the attempt log grows by exactly the URL list, whatever the per-URL
outcomes), it is a total function (failures are caught, never aborting the
loop or propagating) leaving the chat state unchanged, and run_chat always
continues to the rag_answer step afterwards: its result is rag_query_node
applied to the post-classification state on every path. -/
theorem c7_ingest_loop :
    (∀ (env : RagEnv) (st : ChatState) (ist : IngestState),
        (ingest_node env (st, ist)).1 = st ∧
        ((ingest_node env (st, ist)).2).attemptLog = ist.attemptLog ++ st.urls) ∧
    (∀ (env : RagEnv) (ist : IngestState) (q : String),
        (run_chat env ist q).1
          = rag_query_node env ⟨q, extract_urls q, "", [], false⟩) := by
  constructor
  · intro env st ist
    exact ⟨rfl, ingest_fold_attemptLog env st.urls ist⟩
  · exact run_chat_fst

/-- C10: every successful response of the chat endpoint has used_rag false:
the ChatResponse is built from the orchestration result without forwarding
used_rag, which therefore keeps its default of false. -/
theorem c10_used_rag_default (env : RagEnv) (ist : IngestState) (q : String)
    (resp : ChatResponse)
    (h : chat_endpoint env ist q = Except.ok resp) : resp.used_rag = false := by
  unfold chat_endpoint at h
  rcases hv : validate_query q with e | q2 <;> simp only [hv] at h
  · exact Except.noConfusion h
  · rcases hr : (run_chat env ist q2).1 with e | result <;> simp only [hr] at h
    · exact Except.noConfusion h
    · simp only [Except.ok.injEq] at h
      subst h
      rfl

/-- Witness for c10_used_rag_default: a grounded run (used_rag true in the
orchestration result) still yields a response with used_rag false. -/
theorem c10_used_rag_default_witness :
    ∃ resp, chat_endpoint env1 ist0 "q" = Except.ok resp ∧ resp.used_rag = false :=
  ⟨⟨ "The sky is blue.", some [ "http://a", "http://b"], false, "success"⟩, rfl,
   c10_used_rag_default env1 ist0 "q" _ rfl⟩
